import Mathlib

/-!
Verification of the VaultMesh mesh repository's specification against its
source.  The development shallowly embeds the Rust source:

* `src/main.rs` — JSON canonicalization (`sort_json`, `canonical_payload_json`,
  `canonical_leaf_hex`), the Merkle engine (`hex_concat_ordered`,
  `build_merkle`, `fold_path_to_root`) and the `verify` subcommand's checks;
* `src/sync/mod.rs` — the flat `merkle_root` fold;
* `src/sync/policy.rs` — `PeerGuard` and `allowed`;
* `src/ledger.rs` — `add_json`, `list`, `classify` over an explicit store;
* `src/receipt.rs` — `sign_receipt` / `verify_receipt`;
* `src/gateway.rs` — `verify_bundle`.

The blake3 digest, the ed25519 scheme, base64 and the JSON-schema validators
live in external crates; they enter the embedding as explicit function
parameters, and theorems that depend on their behaviour carry the
corresponding hypotheses.  Byte strings are `List Nat` (one element per byte);
`Option`/`Except` replace panics and `Result`.
-/

/-! ## JSON values

`serde_json::Value` is embedded as `Json`.  Objects carry their entries as an
association list in insertion order; `serde_json`'s map never holds two equal
keys.  Numbers are integers (`i64`); no float appears in any record the
repository serializes. -/

inductive Json where
  | null : Json
  | bool : Bool → Json
  | num : Int → Json
  | str : String → Json
  | arr : List Json → Json
  | obj : List (String × Json) → Json

/-- Byte view of a string, one `Nat` per Unicode code point.  Every string the
repository compares or hashes is ASCII (hex digests, identifiers, JSON text
with ASCII payloads), where code points and UTF-8 bytes coincide, so this is
the byte sequence Rust's `as_bytes` produces and the order `str::le` uses. -/
def strBytes (s : String) : List Nat := s.data.map Char.toNat

/-- Lexicographic order on byte lists, as Rust compares `&str`/`[u8]`. -/
def bytesLe : List Nat → List Nat → Bool
  | [], _ => true
  | _ :: _, [] => false
  | a :: as, b :: bs => if a < b then true else if b < a then false else bytesLe as bs

/-- Rust's `a_hex <= b_hex` on strings (byte-lexicographic). -/
def strLe (a b : String) : Bool := bytesLe (strBytes a) (strBytes b)

/-- Insert into a list sorted by `le` (used to model `BTreeMap` iteration
order and `Vec::sort`). -/
def insertLe {α : Type} (le : α → α → Bool) (a : α) : List α → List α
  | [] => [a]
  | b :: bs => if le a b then a :: b :: bs else b :: insertLe le a bs

/-- Sort by `le`; on lists whose keys are distinct this is the unique sorted
permutation, which is exactly the iteration order of a `BTreeMap` built by
inserting the entries, and the result of `Vec::sort`. -/
def sortLe {α : Type} (le : α → α → Bool) : List α → List α
  | [] => []
  | a :: as => insertLe le a (sortLe le as)

/-- JSON string escaping as `serde_json` writes it (quote, backslash and
control characters; other characters verbatim). -/
def escapeChar (c : Char) : List Char :=
  if c = '"' then ['\\', '"']
  else if c = '\\' then ['\\', '\\']
  else if c.toNat = 8 then ['\\', 'b']
  else if c.toNat = 9 then ['\\', 't']
  else if c.toNat = 10 then ['\\', 'n']
  else if c.toNat = 12 then ['\\', 'f']
  else if c.toNat = 13 then ['\\', 'r']
  else if c.toNat < 32 then
    let lo := c.toNat % 16
    let hi := c.toNat / 16
    ['\\', 'u', '0', '0',
      (if hi < 10 then Char.ofNat (48 + hi) else Char.ofNat (87 + hi)),
      (if lo < 10 then Char.ofNat (48 + lo) else Char.ofNat (87 + lo))]
  else [c]

/-- A JSON string literal: quoted and escaped. -/
def quoteStr (s : String) : String :=
  ⟨'"' :: s.data.flatMap escapeChar ++ ['"']⟩

mutual

/-- Compact serialization of a `Json` value: `serde_json::to_string`, no
insignificant whitespace, objects in entry order. -/
def serializeJson : Json → String
  | .null => "null"
  | .bool true => "true"
  | .bool false => "false"
  | .num n => toString n
  | .str s => quoteStr s
  | .arr xs => "[" ++ serializeArr xs ++ "]"
  | .obj kvs => "\x7b" ++ serializeObj kvs ++ "\x7d"

/-- Comma-separated serialization of array elements. -/
def serializeArr : List Json → String
  | [] => ""
  | [x] => serializeJson x
  | x :: y :: xs => serializeJson x ++ "," ++ serializeArr (y :: xs)

/-- Comma-separated serialization of object entries. -/
def serializeObj : List (String × Json) → String
  | [] => ""
  | [(k, v)] => quoteStr k ++ ":" ++ serializeJson v
  | (k, v) :: q :: xs => quoteStr k ++ ":" ++ serializeJson v ++ "," ++ serializeObj (q :: xs)

end

/-- Key order used by `BTreeMap<String, _>`: byte-lexicographic on the key. -/
def keyLe (p q : String × Json) : Bool := strLe p.1 q.1

mutual

/-- The `sort_json` function of `src/main.rs`: recursively rebuild every
object through a `BTreeMap`, so all object entries end up in ascending key
order at every depth; arrays are recursed into positionally; scalars are
untouched. -/
def sortJson : Json → Json
  | .null => .null
  | .bool b => .bool b
  | .num n => .num n
  | .str s => .str s
  | .arr xs => .arr (sortJsonArr xs)
  | .obj kvs => .obj (sortLe keyLe (sortJsonEntries kvs))

/-- Apply `sortJson` to each array element. -/
def sortJsonArr : List Json → List Json
  | [] => []
  | x :: xs => sortJson x :: sortJsonArr xs

/-- Apply `sortJson` to the value of each object entry. -/
def sortJsonEntries : List (String × Json) → List (String × Json)
  | [] => []
  | (k, v) :: xs => (k, sortJson v) :: sortJsonEntries xs

end

/-! ## Hex encoding and decoding (the `hex` crate) -/

/-- Value of one hex digit character, `none` when the character is not a hex
digit (`hex::decode` accepts both cases). -/
def hexDigitVal (c : Char) : Option Nat :=
  if 48 ≤ c.toNat ∧ c.toNat ≤ 57 then some (c.toNat - 48)
  else if 97 ≤ c.toNat ∧ c.toNat ≤ 102 then some (c.toNat - 87)
  else if 65 ≤ c.toNat ∧ c.toNat ≤ 70 then some (c.toNat - 55)
  else none

/-- Decode a hex character list two digits at a time; odd length or a non-hex
character fails, as `hex::decode` does. -/
def hexDecodeChars : List Char → Option (List Nat)
  | [] => some []
  | [_] => none
  | c1 :: c2 :: rest =>
      match hexDigitVal c1, hexDigitVal c2, hexDecodeChars rest with
      | some h, some l, some bs => some ((16 * h + l) :: bs)
      | _, _, _ => none

/-- The `hex::decode` function: bytes of the hex string, or failure. -/
def hexDecode (s : String) : Option (List Nat) := hexDecodeChars s.data

/-- Lowercase hex digit character for a value below 16. -/
def hexDigitChar (n : Nat) : Char :=
  if n < 10 then Char.ofNat (48 + n) else Char.ofNat (87 + n)

/-- The `hex::encode` function: two lowercase digits per byte. -/
def hexEncode (bs : List Nat) : String :=
  ⟨bs.flatMap fun b => [hexDigitChar (b / 16 % 16), hexDigitChar (b % 16)]⟩

/-- A string accepted by `hex::decode`. -/
abbrev IsHexStr (s : String) : Prop := (hexDecode s).isSome

/-! ## The Merkle engine of `src/main.rs`

The blake3 digest function enters as the parameter `blake`; `blake3_hex` is
`hex::encode` composed with it.  `hex_concat_ordered` panics on invalid hex
(its `expect` calls), which the embedding renders as `none`. -/

/-- The `blake3_hex` helper of `src/main.rs` (and `src/receipt.rs`), over an
abstract digest function `blake`. -/
def blake3_hex (blake : List Nat → List Nat) (bytes : List Nat) : String :=
  hexEncode (blake bytes)

/-- The `hex_concat_ordered` function of `src/main.rs`: point the smaller hex
string first (byte order), then decode and concatenate the raw bytes; `none`
models the panic of its `expect` calls on non-hex input. -/
def hex_concat_ordered (a_hex b_hex : String) : Option (List Nat) :=
  let p := if strLe a_hex b_hex then (a_hex, b_hex) else (b_hex, a_hex)
  match hexDecode p.1, hexDecode p.2 with
  | some a, some b => some (a ++ b)
  | _, _ => none

/-- Parent digest of an ordered pair of children:
`blake3_hex(&hex_concat_ordered(left, right))`. -/
def parentOf (blake : List Nat → List Nat) (a b : String) : Option String :=
  (hex_concat_ordered a b).map (blake3_hex blake)

/-- The sibling-path map of `build_merkle`: a `HashMap<String, Vec<String>>`
as an association list (insertion order is irrelevant to lookups). -/
abbrev PathMap : Type := List (String × List String)

/-- The `paths.entry(k).or_default().push(s)` operation. -/
def pushSib : PathMap → String → String → PathMap
  | [], k, s => [(k, [s])]
  | (q, v) :: rest, k, s =>
      if q = k then (q, v ++ [s]) :: rest else (q, v) :: pushSib rest k s

/-- The `paths.entry(k).or_default()` initialization. -/
def ensureKey : PathMap → String → PathMap
  | [], k => [(k, [])]
  | (q, v) :: rest, k =>
      if q = k then (q, v) :: rest else (q, v) :: ensureKey rest k

/-- Initialization loop of `build_merkle`: an empty path entry per leaf. -/
def initPaths (leaves : List String) : PathMap := leaves.foldl ensureKey []

/-- The `paths.get(k)` lookup. -/
def getPath : PathMap → String → Option (List String)
  | [], _ => none
  | (q, v) :: rest, k => if q = k then some v else getPath rest k

/-- One pass of `build_merkle`'s inner `for chunk in layer.chunks(2)` loop:
pair adjacent digests (a trailing odd digest pairs with itself), record each
child's sibling in the path map, and emit the parent layer. -/
def buildPass (blake : List Nat → List Nat) :
    List String → PathMap → Option (List String × PathMap)
  | [], pm => some ([], pm)
  | [x], pm =>
      (parentOf blake x x).map fun p => ([p], pushSib (pushSib pm x x) x x)
  | x :: y :: rest, pm =>
      match parentOf blake x y, buildPass blake rest (pushSib (pushSib pm x y) y x) with
      | some p, some (ns, pm2) => some (p :: ns, pm2)
      | _, _ => none

/-- Length of the parent layer produced by one pass (a proof term used by the
termination argument of the layer loop below). -/
def buildPass_len (blake : List Nat → List Nat) :
    ∀ l pm ns pm2, buildPass blake l pm = some (ns, pm2) → ns.length = (l.length + 1) / 2
  | [], _, _, _ => by intro h; cases h; rfl
  | [x], pm, ns, pm2 => by
      intro h
      simp only [buildPass] at h
      rcases hp : parentOf blake x x with _ | p <;> rw [hp] at h <;> simp at h
      obtain ⟨h1, _⟩ := h
      simp [← h1]
  | x :: y :: rest, pm, ns, pm2 => by
      intro h
      simp only [buildPass] at h
      rcases hxy : parentOf blake x y with _ | p <;> rw [hxy] at h
      · cases h
      rcases hrec : buildPass blake rest (pushSib (pushSib pm x y) y x) with _ | ⟨ns', pm'⟩ <;>
        rw [hrec] at h
      · cases h
      cases h
      have := buildPass_len blake rest _ _ _ hrec
      simp only [List.length_cons]
      omega

/-- The `while layer.len() > 1` loop of `build_merkle`; `none` on the empty
layer models the `layer[0]` panic (unreachable: the caller guards emptiness).
-/
def buildLoop (blake : List Nat → List Nat) (layer : List String) (pm : PathMap) :
    Option (String × PathMap) :=
  match layer with
  | [] => none
  | [r] => some (r, pm)
  | x :: y :: rest =>
      match h : buildPass blake (x :: y :: rest) pm with
      | none => none
      | some (next, pm2) => buildLoop blake next pm2
termination_by layer.length
decreasing_by
  have := buildPass_len blake (x :: y :: rest) pm next pm2 h
  simp only [List.length_cons] at this ⊢
  omega

/-- The `build_merkle` function of `src/main.rs`: empty input yields the empty
root sentinel and an empty path map; otherwise seed the path map and fold
layers to a single digest. -/
def build_merkle (blake : List Nat → List Nat) (leaves : List String) :
    Option (String × PathMap) :=
  if leaves = [] then some ("", []) else buildLoop blake leaves (initPaths leaves)

/-- The `fold_path_to_root` function of `src/main.rs`: hash the ordered
concatenation of the running digest with each path sibling in sequence. -/
def fold_path_to_root (blake : List Nat → List Nat) :
    String → List String → Option String
  | cur, [] => some cur
  | cur, sib :: rest =>
      match parentOf blake cur sib with
      | none => none
      | some nxt => fold_path_to_root blake nxt rest

/-! ## The flat root of `src/sync/mod.rs`

`merkle_root` feeds each digest string's bytes into one running blake3
hasher.  The hasher is modelled by its accumulated input: `update` appends
bytes, `finalize` applies the digest function to everything fed so far, which
is blake3's documented streaming behaviour. -/

/-- The `merkle_root` function of `src/sync/mod.rs`: one hasher, updated with
each digest's bytes in order, then finalized and hex-encoded. -/
def sync_merkle_root (blake : List Nat → List Nat) (digests : List String) : String :=
  hexEncode (blake (digests.foldl (fun acc d => acc ++ strBytes d) []))

/-! ## Receipts of `src/main.rs` and their canonicalization

The CLI `Receipt` struct and the canonical-digest chain
`to_value → remove_leaf_and_merkle → sort_json → to_string → blake3_hex`.
Serialization of a struct lists its fields in declaration order; the chain
sorts every object before serializing, so that order never reaches the
digest. `Option` fields serialize as `null` (no `skip_serializing_if` in
`main.rs`). -/

structure MActor where
  id : String
  cap : List String
  sig : String

structure MOp where
  kind : String
  target : String
  risk : Option String
  change_window : Option String
  approvals : List String
  plan_hash : String
  apply_hash : String

structure MBuild where
  repo : String
  commit : String
  binary_hash : String

structure MEnv where
  ci : Option String
  runner : Option String
  tf_version : Option String
  plugins : Option (List String)

structure MSign where
  alg : String
  sig : String
  pub_ : String

structure MMerkle where
  date : String
  path : List String
  root : String

structure MReceipt where
  id : String
  ts : String
  actor : MActor
  op : MOp
  build : MBuild
  env : MEnv
  sign : MSign
  leaf : String
  merkle : MMerkle

/-- Serialization of an optional string field (`None` becomes `null`). -/
def optStrJson : Option String → Json
  | none => .null
  | some s => .str s

/-- Serialization of an optional string-array field. -/
def optArrJson : Option (List String) → Json
  | none => .null
  | some xs => .arr (xs.map .str)

/-- Serde serialization of `Actor` in `src/main.rs`. -/
def mactorToJson (a : MActor) : Json :=
  .obj [("id", .str a.id), ("cap", .arr (a.cap.map .str)), ("sig", .str a.sig)]

/-- Serde serialization of `Op` in `src/main.rs`. -/
def mopToJson (o : MOp) : Json :=
  .obj [("kind", .str o.kind), ("target", .str o.target), ("risk", optStrJson o.risk),
    ("change_window", optStrJson o.change_window),
    ("approvals", .arr (o.approvals.map .str)),
    ("plan_hash", .str o.plan_hash), ("apply_hash", .str o.apply_hash)]

/-- Serde serialization of `Build` in `src/main.rs`. -/
def mbuildToJson (b : MBuild) : Json :=
  .obj [("repo", .str b.repo), ("commit", .str b.commit), ("binary_hash", .str b.binary_hash)]

/-- Serde serialization of `Env` in `src/main.rs`. -/
def menvToJson (e : MEnv) : Json :=
  .obj [("ci", optStrJson e.ci), ("runner", optStrJson e.runner),
    ("tf_version", optStrJson e.tf_version), ("plugins", optArrJson e.plugins)]

/-- Serde serialization of `Sign` in `src/main.rs`. -/
def msignToJson (s : MSign) : Json :=
  .obj [("alg", .str s.alg), ("sig", .str s.sig), ("pub_", .str s.pub_)]

/-- Serde serialization of `Merkle` in `src/main.rs`. -/
def mmerkleToJson (m : MMerkle) : Json :=
  .obj [("date", .str m.date), ("path", .arr (m.path.map .str)), ("root", .str m.root)]

/-- The `to_value` serialization of the CLI `Receipt`. -/
def mreceiptToJson (r : MReceipt) : Json :=
  .obj [("id", .str r.id), ("ts", .str r.ts), ("actor", mactorToJson r.actor),
    ("op", mopToJson r.op), ("build", mbuildToJson r.build), ("env", menvToJson r.env),
    ("sign", msignToJson r.sign), ("leaf", .str r.leaf), ("merkle", mmerkleToJson r.merkle)]

/-- The `Map::remove(k)` operation on object entries (a serde map holds a key
at most once). -/
def removeKeyEntries : List (String × Json) → String → List (String × Json)
  | [], _ => []
  | (q, v) :: rest, k => if q = k then rest else (q, v) :: removeKeyEntries rest k

/-- The `remove_leaf_and_merkle` function of `src/main.rs`. -/
def remove_leaf_and_merkle : Json → Json
  | .obj kvs => .obj (removeKeyEntries (removeKeyEntries kvs "leaf") "merkle")
  | v => v

/-- The `canonical_payload_json` function of `src/main.rs`:
`to_value → remove_leaf_and_merkle → sort_json → to_string`. -/
def canonical_payload_json (r : MReceipt) : String :=
  serializeJson (sortJson (remove_leaf_and_merkle (mreceiptToJson r)))

/-- The `canonical_leaf_hex` function of `src/main.rs`. -/
def canonical_leaf_hex (blake : List Nat → List Nat) (r : MReceipt) : String :=
  blake3_hex blake (strBytes (canonical_payload_json r))

/-- Modelled from the spec: the spec's §3 invariant hashes the record with
its `leaf`, `merkle` and `sign` fields all removed; this variant removes
`sign` as well, for comparison with `canonical_leaf_hex` as the code defines
it. -/
def canonical_leaf_hex_spec (blake : List Nat → List Nat) (r : MReceipt) : String :=
  blake3_hex blake (strBytes (serializeJson (sortJson
    (remove_leaf_and_merkle (.obj (removeKeyEntries
      (match mreceiptToJson r with | .obj kvs => kvs | _ => []) "sign"))))))

/-- The leaf and path checks of the CLI `Verify` subcommand
(`src/main.rs`, `Cmd::Verify`): recompute the canonical leaf digest, compare
it with the transmitted `leaf`, then fold the stored path and compare with
the published root; `none` from the fold models the hex-decode panic. -/
def verifyCmdChecks (blake : List Nat → List Nat) (rec : MReceipt) (root_hex : String) :
    Except String Unit :=
  if canonical_leaf_hex blake rec ≠ rec.leaf then
    .error "leaf mismatch: receipt tampered or not canonical"
  else
    match fold_path_to_root blake rec.leaf rec.merkle.path with
    | none => .error "panic: invalid hex in path"
    | some folded =>
        if folded ≠ root_hex then .error "path->root mismatch" else .ok ()

/-! ## Peer policy (`src/sync/policy.rs`) -/

/-- The `PeerPolicy` configuration record parsed from `peers.toml`. -/
structure PeerPolicy where
  allow_ids : List String

/-- The `PeerGuard` state: `None` when no non-empty allow-list was loaded.
The `HashSet` is carried as the list it was collected from (membership is the
only operation). -/
structure PeerGuard where
  allow : Option (List String)

/-- The `PeerGuard::new` constructor.  `cfg` is the outcome of locating and
parsing the policy file: `none` when the file is absent or unparsable. -/
def PeerGuard.new (cfg : Option PeerPolicy) : PeerGuard :=
  match cfg with
  | some c => if c.allow_ids ≠ [] then ⟨some c.allow_ids⟩ else ⟨none⟩
  | none => ⟨none⟩

/-- The `PeerGuard::allowed` membership test: `is_none_or(contains)`. -/
def PeerGuard.allowed (g : PeerGuard) (actor_id : String) : Bool :=
  match g.allow with
  | none => true
  | some set => set.contains actor_id

/-! ## Ledger (`src/ledger.rs`)

The ledger directory is an explicit state: an association of file keys
(digest, the file name without `.json`) to stored bytes.  `fs::write`
replaces an existing file. -/

/-- Ledger directory contents: file key paired with stored bytes. -/
abbrev LedgerState : Type := List (String × List Nat)

/-- The `fs::write` of one digest-keyed file: replace or append. -/
def ledgerWrite : LedgerState → String → List Nat → LedgerState
  | [], k, bs => [(k, bs)]
  | (q, v) :: rest, k, bs =>
      if q = k then (q, bs) :: rest else (q, v) :: ledgerWrite rest k bs

/-- The `add_json` function of `src/ledger.rs`: digest the bytes, store them
under `digest.json`, return the digest (the kind hint and commit metadata are
ignored by the source). -/
def ledger_add_json (blake : List Nat → List Nat) (st : LedgerState) (bytes : List Nat) :
    String × LedgerState :=
  let digest := blake3_hex blake bytes
  (digest, ledgerWrite st digest bytes)

/-- The `get_json` lookup of `src/ledger.rs`. -/
def ledger_get_json (st : LedgerState) (digest : String) : Option (List Nat) :=
  match st with
  | [] => none
  | (q, v) :: rest => if q = digest then some v else ledger_get_json rest digest

/-- The `Entry` record of `src/ledger.rs`. -/
structure LedgerEntry where
  kind : String
  digest : String
deriving DecidableEq

/-- The `classify` function of `src/ledger.rs`: parse the stored bytes, try
the receipt schema, then the provenance schema, else `unknown`.  `parse`
models `serde_json::from_slice`, `vR`/`vP` the external schema validators. -/
def ledger_classify (parse : List Nat → Option Json) (vR vP : Json → Bool)
    (bytes : List Nat) : String :=
  match parse bytes with
  | some v => if vR v then "receipt" else if vP v then "provenance" else "unknown"
  | none => "unknown"

/-- The `list` function of `src/ledger.rs`: one entry per stored `.json`
file, the digest taken from the file name and the kind recomputed from the
stored bytes by `classify`. -/
def ledger_list (parse : List Nat → Option Json) (vR vP : Json → Bool)
    (st : LedgerState) : List LedgerEntry :=
  st.map fun e => ⟨ledger_classify parse vR vP e.2, e.1⟩

/-- Ledger states reachable from an empty directory through `add_json` calls
only (the content-addressed discipline every writer of the repository
follows). -/
inductive LedgerReachable (blake : List Nat → List Nat) : LedgerState → Prop
  | empty : LedgerReachable blake []
  | add (st : LedgerState) (bytes : List Nat) :
      LedgerReachable blake st → LedgerReachable blake (ledger_add_json blake st bytes).2

/-! ## Receipts of `src/receipt.rs` and sign/verify

Serde serialization goes through `serde_json`'s `BTreeMap`-backed map, so
object keys appear in ascending byte order (the source's `hash_canonical`
comment relies on exactly this).  `ed25519_dalek` and `base64` are external:
they enter as the `SigScheme` and `B64` parameter bundles. -/

structure RActor where
  id : String

structure RSubject where
  kind : String
  digest : String
  meta : Option Json

structure RSign where
  pub_ : String
  sig : String
  alg : Option String
deriving DecidableEq

structure RReceipt where
  actor : RActor
  env : List (String × String)
  ts : String
  subject : RSubject
  sign : Option RSign
  provenance : Option Json
  provenance_ref : Option (String × String)

/-- Serde serialization of `Actor` in `src/receipt.rs`. -/
def ractorToJson (a : RActor) : Json := .obj [("id", .str a.id)]

/-- Serde serialization of `Subject`: keys in map order; `meta` is omitted
when `None` (`skip_serializing_if`). -/
def rsubjectToJson (s : RSubject) : Json :=
  .obj ([("digest", .str s.digest), ("kind", .str s.kind)] ++
    (match s.meta with | none => [] | some m => [("meta", m)]))

/-- Serde serialization of `Sign`: field renames give keys `pub` and `sig`;
`alg` is omitted when `None` (`skip_serializing_if`); map order sorts `alg`
first. -/
def rsignToJson (s : RSign) : Json :=
  .obj ((match s.alg with | none => [] | some a => [("alg", .str a)]) ++
    [("pub", .str s.pub_), ("sig", .str s.sig)])

/-- Serde serialization of a `ProvenanceRef` (`path`, `digest`), map order. -/
def rprovRefToJson (p : String × String) : Json :=
  .obj [("digest", .str p.2), ("path", .str p.1)]

/-- The `to_value` serialization of the `src/receipt.rs` `Receipt`: keys in
ascending map order (`actor`, `env`, `provenance`, `provenance_ref`, `sign`,
`subject`, `ts`); `provenance` and `provenance_ref` omitted when `None`
(`skip_serializing_if`); `sign` serialized as `null` when `None`.  The
`env` map serializes in ascending key order.  The provenance payload is
carried as the `Json` value it serializes to. -/
def rreceiptToJson (r : RReceipt) : Json :=
  .obj ([("actor", ractorToJson r.actor),
    ("env", .obj ((sortLe (fun a b => strLe a.1 b.1) r.env).map fun p => (p.1, .str p.2)))] ++
    (match r.provenance with | none => [] | some p => [("provenance", p)]) ++
    (match r.provenance_ref with | none => [] | some p => [("provenance_ref", rprovRefToJson p)]) ++
    [("sign", match r.sign with | none => .null | some s => rsignToJson s),
     ("subject", rsubjectToJson r.subject), ("ts", .str r.ts)])

/-- The `hash_canonical` function of `src/receipt.rs`: serialize the value as
it stands and hash the text. -/
def hash_canonical (blake : List Nat → List Nat) (v : Json) : String :=
  blake3_hex blake (strBytes (serializeJson v))

/-- Removal of the `sign` entry from a serialized record, as both
`sign_receipt` and `verify_receipt` perform it. -/
def removeSignKey : Json → Json
  | .obj kvs => .obj (removeKeyEntries kvs "sign")
  | v => v

/-- An `ed25519_dalek` keypair: secret and public key bytes. -/
structure Keypair where
  secret : List Nat
  public : List Nat

/-- The external ed25519 operations: signing with a keypair, parsing public
key and signature bytes (`from_bytes`), and verification. -/
structure SigScheme where
  sign : Keypair → List Nat → List Nat
  parsePub : List Nat → Option (List Nat)
  parseSig : List Nat → Option (List Nat)
  verify : List Nat → List Nat → List Nat → Bool

/-- The external base64 engine: encode bytes to text, decode text to bytes. -/
structure B64 where
  enc : List Nat → String
  dec : String → Option (List Nat)

/-- The `sign_receipt` function of `src/receipt.rs`: canonicalize with the
`sign` entry removed, hash, sign the hex text of the digest, store the
base64-encoded key and signature with algorithm label `ed25519`. -/
def sign_receipt (S : SigScheme) (b : B64) (blake : List Nat → List Nat)
    (r : RReceipt) (kp : Keypair) : RReceipt :=
  let digest_hex := hash_canonical blake (removeSignKey (rreceiptToJson r))
  let sg := S.sign kp (strBytes digest_hex)
  { r with sign := some ⟨b.enc kp.public, b.enc sg, some "ed25519"⟩ }

/-- The `verify_receipt` function of `src/receipt.rs`: require a `sign`
block, decode key and signature, parse both, recompute the digest of the
record with `sign` removed, verify the signature over the digest's hex
text. -/
def verify_receipt (S : SigScheme) (b : B64) (blake : List Nat → List Nat)
    (r : RReceipt) : Except String Unit :=
  match r.sign with
  | none => .error "missing sign"
  | some s =>
      match b.dec s.pub_ with
      | none => .error "bad public b64"
      | some pub_bytes =>
          match b.dec s.sig with
          | none => .error "bad signature b64"
          | some sig_bytes =>
              match S.parsePub pub_bytes with
              | none => .error "bad public"
              | some pk =>
                  match S.parseSig sig_bytes with
                  | none => .error "bad signature"
                  | some sg =>
                      let digest_hex :=
                        hash_canonical blake (removeSignKey (rreceiptToJson r))
                      if S.verify pk (strBytes digest_hex) sg then .ok ()
                      else .error "signature verify failed"

/-! ## Gateway (`src/gateway.rs`)

`verify_bundle` over an explicit ledger state.  The schema validators, the
typed parse (`serde_json::from_value`) and the receipt verifier enter as
parameters; HTTP statuses are their numeric codes. -/

/-- The `Value::get(key)` lookup on a JSON body. -/
def jsonGet (v : Json) (k : String) : Option Json :=
  match v with
  | .obj kvs =>
      match kvs.find? (fun p => p.1 == k) with
      | some p => some p.2
      | none => none
  | _ => none

/-- The `verify_bundle` function of `src/gateway.rs`: extract both bundle
parts, validate each against its schema, parse the receipt, gate on the peer
policy, verify the signature, persist both payloads, and recompute the flat
root over the sorted digests of all receipt-kind entries.  The returned state
is the ledger directory after the call. -/
def verify_bundle (validR validP : Json → Except String Unit)
    (parseR : Json → Except String RReceipt)
    (verifyR : RReceipt → Except String Unit)
    (blake : List Nat → List Nat)
    (parse : List Nat → Option Json) (vR vP : Json → Bool)
    (guard : PeerGuard) (st : LedgerState) (body : Json) :
    Except (Nat × String) Json × LedgerState :=
  match jsonGet body "receipt" with
  | none => (.error (400, "missing receipt"), st)
  | some r_val =>
    match jsonGet body "provenance" with
    | none => (.error (400, "missing provenance"), st)
    | some p_val =>
      match validR r_val with
      | .error e => (.error (400, e), st)
      | .ok _ =>
        match validP p_val with
        | .error e => (.error (400, e), st)
        | .ok _ =>
          match parseR r_val with
          | .error e => (.error (400, e), st)
          | .ok rcpt =>
            if ¬ guard.allowed rcpt.actor.id then
              (.error (403, "actor not allowed: " ++ rcpt.actor.id), st)
            else
              match verifyR rcpt with
              | .error e => (.error (422, e), st)
              | .ok _ =>
                let r_bytes := strBytes (serializeJson r_val)
                let p_bytes := strBytes (serializeJson p_val)
                let rd := ledger_add_json blake st r_bytes
                let pd := ledger_add_json blake rd.2 p_bytes
                let digests := sortLe strLe
                  (((ledger_list parse vR vP pd.2).filter
                    (fun e => e.kind == "receipt")).map (fun e => e.digest))
                (.ok (.obj [("status", .str "verified"),
                  ("receipt_digest", .str rd.1),
                  ("merkle_root", .str (sync_merkle_root blake digests))]), pd.2)

/-! ## Key-order equivalence of JSON values

`JEquiv a b` holds when `b` arises from `a` by permuting the insertion order
of object entries, at any nesting depth, leaving every key's value (up to the
same reordering below) and every array's element order intact.  `jsonWF`
checks that no object holds a key twice, which is an invariant of every
`serde_json` map. -/

mutual

inductive JEquiv : Json → Json → Prop
  | null : JEquiv .null .null
  | bool (b : Bool) : JEquiv (.bool b) (.bool b)
  | num (n : Int) : JEquiv (.num n) (.num n)
  | str (s : String) : JEquiv (.str s) (.str s)
  | arr {xs ys : List Json} : JEquivArr xs ys → JEquiv (.arr xs) (.arr ys)
  | obj {l1 l2 l3 : List (String × Json)} :
      JEquivEntries l1 l2 → l2.Perm l3 → JEquiv (.obj l1) (.obj l3)

inductive JEquivArr : List Json → List Json → Prop
  | nil : JEquivArr [] []
  | cons {x y : Json} {xs ys : List Json} :
      JEquiv x y → JEquivArr xs ys → JEquivArr (x :: xs) (y :: ys)

inductive JEquivEntries : List (String × Json) → List (String × Json) → Prop
  | nil : JEquivEntries [] []
  | cons {k : String} {v w : Json} {l1 l2 : List (String × Json)} :
      JEquiv v w → JEquivEntries l1 l2 → JEquivEntries ((k, v) :: l1) ((k, w) :: l2)

end

mutual

/-- Well-formedness of a JSON value: every object's keys are pairwise
distinct, recursively. -/
def jsonWF : Json → Bool
  | .null => true
  | .bool _ => true
  | .num _ => true
  | .str _ => true
  | .arr xs => jsonWFArr xs
  | .obj kvs => decide ((kvs.map Prod.fst).Nodup) && jsonWFEntries kvs

/-- Well-formedness of each array element. -/
def jsonWFArr : List Json → Bool
  | [] => true
  | x :: xs => jsonWF x && jsonWFArr xs

/-- Well-formedness of each object entry's value. -/
def jsonWFEntries : List (String × Json) → Bool
  | [] => true
  | (_, v) :: l => jsonWF v && jsonWFEntries l

end

/-! ## Concrete fixtures

A stand-in digest function and signature scheme make the hypothesis-bearing
theorems instantiable on closed inputs.  `toyBlake` is injective (it appends
a marker byte), which is all the counterexamples use of the digest. -/

/-- Stand-in digest: the input bytes with a marker byte appended
(injective). -/
def toyBlake (bs : List Nat) : List Nat := bs ++ [1]

/-- Stand-in digest with blake3's fixed 32-byte output length. -/
def toyBlake32 (bs : List Nat) : List Nat := (bs ++ List.replicate 32 0).take 32

/-- Stand-in signature scheme: sign by prefixing the secret key, verify by
recomputation against the public key; both parses accept anything. -/
def toySig : SigScheme :=
  ⟨fun kp m => kp.secret ++ m, some, some, fun pk m sg => sg == pk ++ m⟩

/-- Stand-in base64 engine: hex. -/
def toyB64 : B64 := ⟨hexEncode, hexDecode⟩

/-- Stand-in keypair whose public bytes equal its secret bytes, making
`toySig` verification succeed exactly on reproduced signatures. -/
def kp0 : Keypair := ⟨[5], [5]⟩

/-- Concrete CLI receipt with a populated `sign` block. -/
def mrec0 : MReceipt :=
  { id := "01X", ts := "2025-01-01T00:00:00Z",
    actor := ⟨"did:a", ["cap:apply"], ""⟩,
    op := ⟨"apply", "prod", none, none, ["alice"], "ph", "ah"⟩,
    build := ⟨"org/repo", "c0ffee", "bh"⟩,
    env := ⟨none, none, none, none⟩,
    sign := ⟨"ed25519", "SIG", "PUB"⟩,
    leaf := "", merkle := ⟨"", [], ""⟩ }

/-- Concrete unsigned peer receipt. -/
def rrec0 : RReceipt :=
  { actor := ⟨"did:a"⟩, env := [("git_commit", "abc")],
    ts := "2025-01-01T00:00:00Z",
    subject := ⟨"artifact", "deadbeef", none⟩,
    sign := none, provenance := none, provenance_ref := none }

/-- Mutation of the `alg` entry of a receipt's `sign` block, the other fields
untouched. -/
def setSignAlg (r : RReceipt) (a : Option String) : RReceipt :=
  { r with sign := r.sign.map fun s => { s with alg := a } }

/-- The digest whose hex text `sign_receipt` signs: the canonical hash of the
record with its `sign` entry removed. -/
def signedDigest (blake : List Nat → List Nat) (r : RReceipt) : String :=
  hash_canonical blake (removeSignKey (rreceiptToJson r))

/-! ## Helper lemmas -/

/-- Totality of the byte-lexicographic order. -/
theorem bytesLe_total : ∀ a b : List Nat, bytesLe a b = true ∨ bytesLe b a = true
  | [], _ => Or.inl rfl
  | _ :: _, [] => Or.inr rfl
  | a :: as, b :: bs => by
      simp only [bytesLe]
      rcases Nat.lt_trichotomy a b with h | h | h
      · left; simp [h]
      · subst h
        rcases bytesLe_total as bs with ih | ih <;> simp [ih]
      · right; simp [h, Nat.le_of_lt h, Nat.not_lt.mpr (Nat.le_of_lt h)]

/-- Antisymmetry of the byte-lexicographic order. -/
theorem bytesLe_antisymm : ∀ a b : List Nat, bytesLe a b = true → bytesLe b a = true → a = b
  | [], [], _, _ => rfl
  | [], _ :: _, _, h => by simp [bytesLe] at h
  | _ :: _, [], h, _ => by simp [bytesLe] at h
  | a :: as, b :: bs, h1, h2 => by
      simp only [bytesLe] at h1 h2
      rcases Nat.lt_trichotomy a b with h | h | h
      · simp [h, Nat.not_lt.mpr (Nat.le_of_lt h)] at h2
      · subst h
        simp only [lt_irrefl, if_false] at h1 h2
        exact congrArg (a :: ·) (bytesLe_antisymm as bs h1 h2)
      · simp [h, Nat.not_lt.mpr (Nat.le_of_lt h)] at h1

/-- Character code points determine the character. -/
theorem charToNat_injective : Function.Injective Char.toNat := by
  intro a b h
  exact Char.eq_of_val_eq (UInt32.ext h)

/-- The byte view determines the string. -/
theorem strBytes_injective : Function.Injective strBytes := by
  intro a b h
  exact String.ext (List.map_injective_iff.mpr charToNat_injective h)

/-- Antisymmetry of the string byte order. -/
theorem strLe_antisymm {a b : String} (h1 : strLe a b = true) (h2 : strLe b a = true) :
    a = b :=
  strBytes_injective (bytesLe_antisymm _ _ h1 h2)

/-- Totality of the string byte order. -/
theorem strLe_total (a b : String) : strLe a b = true ∨ strLe b a = true :=
  bytesLe_total _ _

/-- Inserting into a list is a permutation of consing. -/
theorem insertLe_perm {α : Type} (le : α → α → Bool) (a : α) :
    ∀ l : List α, (insertLe le a l).Perm (a :: l)
  | [] => List.Perm.refl _
  | b :: bs => by
      simp only [insertLe]
      split
      · exact List.Perm.refl _
      · exact ((insertLe_perm le a bs).cons b).trans (List.Perm.swap a b bs)

/-- Sorting is a permutation. -/
theorem sortLe_perm {α : Type} (le : α → α → Bool) : ∀ l : List α, (sortLe le l).Perm l
  | [] => List.Perm.refl _
  | a :: as => (insertLe_perm le a (sortLe le as)).trans ((sortLe_perm le as).cons a)

/-- Transitivity of the byte-lexicographic order. -/
theorem bytesLe_trans : ∀ a b c : List Nat,
    bytesLe a b = true → bytesLe b c = true → bytesLe a c = true
  | [], _, _ => fun _ _ => rfl
  | _ :: _, [], _ => by intro h _; simp [bytesLe] at h
  | _ :: _, _ :: _, [] => by intro _ h; simp [bytesLe] at h
  | a :: as, b :: bs, c :: cs => by
      intro h1 h2
      simp only [bytesLe] at h1 h2 ⊢
      rcases Nat.lt_trichotomy a b with hab | hab | hab
      · rcases Nat.lt_trichotomy b c with hbc | hbc | hbc
        · simp [show a < c by omega]
        · subst hbc; simp [hab]
        · simp [show ¬ b < c by omega, hbc] at h2
      · subst hab
        rcases Nat.lt_trichotomy a c with hac | hac | hac
        · simp [hac]
        · subst hac
          simp only [lt_irrefl, if_false] at h1 h2 ⊢
          exact bytesLe_trans as bs cs h1 h2
        · simp [show ¬ a < c by omega, hac] at h2
      · simp [show ¬ a < b by omega, hab] at h1

/-- Transitivity of the string byte order. -/
theorem strLe_trans {a b c : String} (h1 : strLe a b = true) (h2 : strLe b c = true) :
    strLe a c = true :=
  bytesLe_trans _ _ _ h1 h2

/-- Inserting into a sorted list keeps it sorted, given totality and
transitivity of the order. -/
theorem pairwise_insertLe {α : Type} (le : α → α → Bool)
    (htrans : ∀ a b c, le a b = true → le b c = true → le a c = true)
    (htot : ∀ a b, le a b = true ∨ le b a = true) (a : α) :
    ∀ l : List α, List.Pairwise (fun x y => le x y = true) l →
      List.Pairwise (fun x y => le x y = true) (insertLe le a l)
  | [], _ => List.pairwise_cons.mpr ⟨by simp, List.Pairwise.nil⟩
  | b :: bs, h => by
      rcases List.pairwise_cons.mp h with ⟨hb, hbs⟩
      simp only [insertLe]
      split
      · rename_i hab
        refine List.pairwise_cons.mpr ⟨?_, h⟩
        intro x hx
        rcases List.mem_cons.mp hx with rfl | hx
        · exact hab
        · exact htrans a b x hab (hb x hx)
      · rename_i hab
        have hba : le b a = true := by
          rcases htot a b with hab2 | hba
          · exact absurd hab2 hab
          · exact hba
        refine List.pairwise_cons.mpr ⟨?_, pairwise_insertLe le htrans htot a bs hbs⟩
        intro x hx
        rcases List.mem_cons.mp ((insertLe_perm le a bs).mem_iff.mp hx) with rfl | hx2
        · exact hba
        · exact hb x hx2

/-- The sorted output of `sortLe`. -/
theorem pairwise_sortLe {α : Type} (le : α → α → Bool)
    (htrans : ∀ a b c, le a b = true → le b c = true → le a c = true)
    (htot : ∀ a b, le a b = true ∨ le b a = true) :
    ∀ l : List α, List.Pairwise (fun x y => le x y = true) (sortLe le l)
  | [] => List.Pairwise.nil
  | a :: as => pairwise_insertLe le htrans htot a _ (pairwise_sortLe le htrans htot as)

/-- Two sorted entry lists that are permutations of one another and whose
keys are pairwise distinct are equal. -/
theorem entries_sorted_unique {m1 m2 : List (String × Json)} (hperm : m1.Perm m2)
    (hnd : (m1.map Prod.fst).Nodup)
    (hs1 : List.Pairwise (fun p q => keyLe p q = true) m1)
    (hs2 : List.Pairwise (fun p q => keyLe p q = true) m2) : m1 = m2 := by
  have hne1 : List.Pairwise (fun p q : String × Json => p.1 ≠ q.1) m1 :=
    List.pairwise_map.mp hnd
  have hnd2 : (m2.map Prod.fst).Nodup := (hperm.map Prod.fst).nodup_iff.mp hnd
  have hne2 : List.Pairwise (fun p q : String × Json => p.1 ≠ q.1) m2 :=
    List.pairwise_map.mp hnd2
  have anti : IsAntisymm (String × Json)
      (fun p q => strLe p.1 q.1 = true ∧ p.1 ≠ q.1) :=
    ⟨fun p q h h2 => absurd (strLe_antisymm h.1 h2.1) h.2⟩
  exact @List.eq_of_perm_of_sorted _ _ anti _ _ hperm
    ((hs1.and hne1).imp fun h => ⟨h.1, h.2⟩)
    ((hs2.and hne2).imp fun h => ⟨h.1, h.2⟩)

/-- Sorting by key is invariant under permutation of entry lists with
pairwise-distinct keys: the `BTreeMap` rebuild of `sort_json` erases
insertion order. -/
theorem sortLe_keyLe_eq_of_perm {m1 m2 : List (String × Json)} (hperm : m1.Perm m2)
    (hnd : (m1.map Prod.fst).Nodup) : sortLe keyLe m1 = sortLe keyLe m2 := by
  have htrans : ∀ a b c : String × Json,
      keyLe a b = true → keyLe b c = true → keyLe a c = true :=
    fun _ _ _ h1 h2 => strLe_trans h1 h2
  have htot : ∀ a b : String × Json, keyLe a b = true ∨ keyLe b a = true :=
    fun _ _ => strLe_total _ _
  have hperm1 : (sortLe keyLe m1).Perm (sortLe keyLe m2) :=
    ((sortLe_perm keyLe m1).trans hperm).trans (sortLe_perm keyLe m2).symm
  have hnd1 : ((sortLe keyLe m1).map Prod.fst).Nodup :=
    (((sortLe_perm keyLe m1).map Prod.fst).nodup_iff).mpr hnd
  exact entries_sorted_unique hperm1 hnd1
    (pairwise_sortLe keyLe htrans htot m1) (pairwise_sortLe keyLe htrans htot m2)

/-- Hex digits round-trip through encoding. -/
theorem hexDigitVal_hexDigitChar {n : Nat} (h : n < 16) :
    hexDigitVal (hexDigitChar n) = some n := by
  interval_cases n <;> decide

/-- Decoding inverts encoding byte by byte (bytes are taken mod 256, the
value every `u8` already has). -/
theorem hexDecode_hexEncode (bs : List Nat) :
    hexDecode (hexEncode bs) = some (bs.map (· % 256)) := by
  induction bs with
  | nil => rfl
  | cons b rest ih =>
      have h1 : hexDigitVal (hexDigitChar (b / 16 % 16)) = some (b / 16 % 16) :=
        hexDigitVal_hexDigitChar (Nat.mod_lt _ (by omega))
      have h2 : hexDigitVal (hexDigitChar (b % 16)) = some (b % 16) :=
        hexDigitVal_hexDigitChar (Nat.mod_lt _ (by omega))
      have ih2 : hexDecodeChars
          (rest.flatMap fun x => [hexDigitChar (x / 16 % 16), hexDigitChar (x % 16)]) =
          some (rest.map (· % 256)) := ih
      simp only [hexDecode, hexEncode, List.flatMap_cons, List.cons_append,
        List.nil_append]
      simp only [hexDecodeChars, h1, h2, ih2]
      simp only [List.map_cons, Option.some.injEq, List.cons.injEq]
      exact ⟨by omega, trivial⟩

/-- Every encoded byte list is hex-decodable. -/
theorem isHexStr_hexEncode (bs : List Nat) : IsHexStr (hexEncode bs) := by
  simp [IsHexStr, hexDecode_hexEncode]

/-- The character data of an encoded byte list. -/
theorem hexEncode_length (bs : List Nat) :
    (hexEncode bs).length = 2 * bs.length := by
  induction bs with
  | nil => rfl
  | cons b rest ih =>
      simp only [hexEncode, String.length, List.flatMap_cons] at ih ⊢
      simp only [List.length_append, List.length_cons, List.length_nil] at ih ⊢
      omega

/-- Folding byte appends equals flattening the byte views. -/
theorem foldl_append_strBytes (ds : List String) :
    ∀ acc : List Nat,
      ds.foldl (fun a d => a ++ strBytes d) acc = acc ++ (ds.map strBytes).flatten := by
  induction ds with
  | nil => intro acc; simp
  | cons d rest ih =>
      intro acc
      simp only [List.foldl_cons, List.map_cons, List.flatten_cons, ih, List.append_assoc]

/-- C7: with no configured allow-list (file absent or `allow_ids` empty)
`allowed` accepts every identity; with a non-empty list it accepts exactly
the listed identities. -/
theorem c7_policy_default_allow :
    (∀ id : String, (PeerGuard.new none).allowed id = true) ∧
    (∀ id : String, (PeerGuard.new (some ⟨[]⟩)).allowed id = true) ∧
    (∀ cfg : PeerPolicy, cfg.allow_ids ≠ [] →
      ∀ id : String,
        ((PeerGuard.new (some cfg)).allowed id = true ↔ id ∈ cfg.allow_ids)) := by
  refine ⟨fun id => rfl, fun id => rfl, fun cfg hne id => ?_⟩
  simp [PeerGuard.new, PeerGuard.allowed, hne]

/-- Witness for C7 at a one-element allow-list. -/
theorem c7_policy_default_allow_witness :
    (["did:a"] : List String) ≠ [] ∧
    ((PeerGuard.new (some ⟨["did:a"]⟩)).allowed "did:b" = true ↔
      "did:b" ∈ (["did:a"] : List String)) :=
  ⟨by decide, c7_policy_default_allow.2.2 ⟨["did:a"]⟩ (by decide) "did:b"⟩

/-- C9: the gateway root is the digest of the in-order concatenation of the
digest strings' bytes — a flat chained hash, not a tree — whose value on the
empty list is the non-empty hex encoding of the digest of no input, while
`build_merkle` of an empty leaf set returns the empty string, so the two
disagree there. -/
theorem c9_sync_root_flat_chain (blake : List Nat → List Nat)
    (h32 : (blake []).length = 32) :
    (∀ ds : List String,
      sync_merkle_root blake ds = blake3_hex blake ((ds.map strBytes).flatten)) ∧
    sync_merkle_root blake [] = blake3_hex blake [] ∧
    sync_merkle_root blake [] ≠ "" ∧
    build_merkle blake [] = some ("", []) := by
  refine ⟨fun ds => ?_, rfl, fun hempty => ?_, rfl⟩
  · simp [sync_merkle_root, blake3_hex, foldl_append_strBytes ds []]
  · have hlen := hexEncode_length (blake [])
    rw [show hexEncode (blake []) = sync_merkle_root blake [] from rfl, hempty] at hlen
    simp [h32] at hlen

/-- Witness for C9 at a fixed-width stand-in digest. -/
theorem c9_sync_root_flat_chain_witness :
    (toyBlake32 []).length = 32 ∧
    sync_merkle_root toyBlake32 ["ab", "cd"] =
      blake3_hex toyBlake32 (((["ab", "cd"] : List String).map strBytes).flatten) ∧
    sync_merkle_root toyBlake32 [] ≠ "" :=
  ⟨by decide, (c9_sync_root_flat_chain toyBlake32 (by decide)).1 ["ab", "cd"],
    (c9_sync_root_flat_chain toyBlake32 (by decide)).2.2.1⟩

/-- C6: a well-formed bundle whose receipt actor is outside a configured
allow-list is rejected with status 403 before any signature verification is
consulted (the conclusion holds for every verifier `verifyR`), and the ledger
state is returned unchanged. -/
theorem c6_gateway_policy_forbidden
    (validR validP : Json → Except String Unit)
    (parseR : Json → Except String RReceipt)
    (verifyR : RReceipt → Except String Unit)
    (blake : List Nat → List Nat)
    (parse : List Nat → Option Json) (vR vP : Json → Bool)
    (S : List String) (guard : PeerGuard) (hguard : guard.allow = some S)
    (hS : S ≠ [])
    (st : LedgerState) (body r_val p_val : Json) (rcpt : RReceipt)
    (hr : jsonGet body "receipt" = some r_val)
    (hp : jsonGet body "provenance" = some p_val)
    (hvr : validR r_val = .ok ())
    (hvp : validP p_val = .ok ())
    (hparse : parseR r_val = .ok rcpt)
    (hdeny : rcpt.actor.id ∉ S) :
    verify_bundle validR validP parseR verifyR blake parse vR vP guard st body =
      (.error (403, "actor not allowed: " ++ rcpt.actor.id), st) := by
  have hcontains : S.contains rcpt.actor.id = false := by
    simpa using hdeny
  simp [verify_bundle, hr, hp, hvr, hvp, hparse, PeerGuard.allowed, hguard, hcontains]
  exact fun hmem => absurd hmem hdeny

/-- Witness for C6: a signature verifier that would accept is never reached;
the request is refused with the policy status and the ledger stays empty. -/
theorem c6_gateway_policy_forbidden_witness :
    verify_bundle (fun _ => .ok ()) (fun _ => .ok ())
      (fun _ => .ok rrec0) (fun _ => .ok ())
      toyBlake (fun _ => none) (fun _ => false) (fun _ => false)
      ⟨some ["did:b"]⟩ []
      (.obj [("receipt", .str "r"), ("provenance", .str "p")]) =
      (.error (403, "actor not allowed: did:a"), []) :=
  c6_gateway_policy_forbidden (fun _ => .ok ()) (fun _ => .ok ())
    (fun _ => .ok rrec0) (fun _ => .ok ()) toyBlake (fun _ => none)
    (fun _ => false) (fun _ => false) ["did:b"] ⟨some ["did:b"]⟩ rfl
    (by decide) [] (.obj [("receipt", .str "r"), ("provenance", .str "p")])
    (.str "r") (.str "p") rrec0 rfl rfl rfl rfl rfl (by decide)

/-- Members of a written store come from the write or from the store. -/
theorem ledgerWrite_mem {p : String × List Nat} :
    ∀ {st : LedgerState} {k : String} {bs : List Nat},
      p ∈ ledgerWrite st k bs → p = (k, bs) ∨ p ∈ st := by
  intro st
  induction st with
  | nil => intro k bs h; simp [ledgerWrite] at h; exact Or.inl h
  | cons q rest ih =>
      intro k bs h
      simp only [ledgerWrite] at h
      split at h
      · rcases List.mem_cons.mp h with rfl | hm
        · rename_i heq; exact Or.inl (by simp [← heq])
        · exact Or.inr (List.mem_cons_of_mem _ hm)
      · rcases List.mem_cons.mp h with rfl | hm
        · exact Or.inr (List.mem_cons_self _ _)
        · rcases ih hm with h1 | h2
          · exact Or.inl h1
          · exact Or.inr (List.mem_cons_of_mem _ h2)

/-- Keys of a written store come from the write or from the store. -/
theorem ledgerWrite_keys {x : String} {st : LedgerState} {k : String} {bs : List Nat}
    (h : x ∈ (ledgerWrite st k bs).map Prod.fst) :
    x = k ∨ x ∈ st.map Prod.fst := by
  rcases List.mem_map.mp h with ⟨p, hp, heq⟩
  rcases ledgerWrite_mem hp with hkb | hmem
  · left; rw [← heq, hkb]
  · right; rw [← heq]; exact List.mem_map_of_mem _ hmem

/-- Writing preserves distinctness of store keys. -/
theorem ledgerWrite_nodup :
    ∀ {st : LedgerState} {k : String} {bs : List Nat},
      (st.map Prod.fst).Nodup → ((ledgerWrite st k bs).map Prod.fst).Nodup := by
  intro st
  induction st with
  | nil => intro k bs _; simp [ledgerWrite]
  | cons q rest ih =>
      intro k bs hnd
      simp only [List.map_cons, List.nodup_cons] at hnd
      obtain ⟨hq, hrest⟩ := hnd
      simp only [ledgerWrite]
      split
      · simp only [List.map_cons, List.nodup_cons]
        exact ⟨hq, hrest⟩
      · rename_i hne
        simp only [List.map_cons, List.nodup_cons]
        refine ⟨?_, ih hrest⟩
        intro hmem
        rcases ledgerWrite_keys hmem with heq | hold
        · exact hne (by simp [heq])
        · exact hq hold

/-- Every entry of a reachable ledger is stored under the digest of its own
bytes. -/
theorem ledgerReachable_digest {blake : List Nat → List Nat} {st : LedgerState}
    (h : LedgerReachable blake st) :
    ∀ p ∈ st, p.1 = blake3_hex blake p.2 := by
  induction h with
  | empty => intro p hp; cases hp
  | add st bytes _ ih =>
      intro p hp
      rcases ledgerWrite_mem hp with rfl | hmem
      · rfl
      · exact ih p hmem

/-- Reachable ledgers hold each digest key at most once. -/
theorem ledgerReachable_nodup {blake : List Nat → List Nat} {st : LedgerState}
    (h : LedgerReachable blake st) : (st.map Prod.fst).Nodup := by
  induction h with
  | empty => simp
  | add st bytes _ ih => exact ledgerWrite_nodup ih

/-- In a store with distinct keys, lookup finds a member's bytes. -/
theorem ledger_get_json_of_mem :
    ∀ {st : LedgerState} {k : String} {bs : List Nat},
      (st.map Prod.fst).Nodup → (k, bs) ∈ st → ledger_get_json st k = some bs := by
  intro st
  induction st with
  | nil => intro k bs _ h; cases h
  | cons q rest ih =>
      intro k bs hnd hmem
      simp only [List.map_cons, List.nodup_cons] at hnd
      obtain ⟨hq, hrest⟩ := hnd
      rcases List.mem_cons.mp hmem with rfl | hmem2
      · simp [ledger_get_json]
      · have hne : q.1 ≠ k := fun heq =>
          hq (by rw [heq]; exact List.mem_map_of_mem Prod.fst hmem2)
        simp only [ledger_get_json]
        rw [if_neg hne]
        exact ih hrest hmem2

/-- C8: on every ledger populated through `add_json`, each `list()` entry's
digest is the digest of the bytes stored under it (digest, storage key and
content hash coincide), and its kind is recomputed from those bytes at read
time — receipt schema first, then provenance, else unknown — rather than
read from any persisted metadata. -/
theorem c8_ledger_list_recomputed (blake : List Nat → List Nat)
    (parse : List Nat → Option Json) (vR vP : Json → Bool)
    (st : LedgerState) (hreach : LedgerReachable blake st) :
    ∀ e ∈ ledger_list parse vR vP st, ∃ bs,
      ledger_get_json st e.digest = some bs ∧
      e.digest = blake3_hex blake bs ∧
      e.kind = ledger_classify parse vR vP bs ∧
      e.kind = (match parse bs with
        | some v => if vR v then "receipt" else if vP v then "provenance" else "unknown"
        | none => "unknown") := by
  intro e he
  rcases List.mem_map.mp he with ⟨p, hp, rfl⟩
  exact ⟨p.2, ledger_get_json_of_mem (ledgerReachable_nodup hreach) hp,
    ledgerReachable_digest hreach p hp, rfl, rfl⟩

/-- Witness for C8 on a one-write ledger. -/
theorem c8_ledger_list_recomputed_witness :
    (⟨"unknown", "0701"⟩ : LedgerEntry) ∈
      ledger_list (fun _ => none) (fun _ => false) (fun _ => false)
        ((ledger_add_json toyBlake [] [7]).2) ∧
    ∃ bs,
      ledger_get_json ((ledger_add_json toyBlake [] [7]).2) "0701" = some bs ∧
      "0701" = blake3_hex toyBlake bs := by
  have hmem : (⟨"unknown", "0701"⟩ : LedgerEntry) ∈
      ledger_list (fun _ => none) (fun _ => false) (fun _ => false)
        ((ledger_add_json toyBlake [] [7]).2) := by decide
  refine ⟨hmem, ?_⟩
  obtain ⟨bs, h1, h2, _, _⟩ :=
    c8_ledger_list_recomputed toyBlake (fun _ => none) (fun _ => false) (fun _ => false)
      ((ledger_add_json toyBlake [] [7]).2)
      (LedgerReachable.add [] [7] LedgerReachable.empty) ⟨"unknown", "0701"⟩ hmem
  exact ⟨bs, h1, h2⟩

/-- On hex inputs, the ordered concatenation succeeds and the parent digest
is itself hex. -/
theorem parentOf_isSome (blake : List Nat → List Nat) {a b : String}
    (ha : IsHexStr a) (hb : IsHexStr b) :
    ∃ p, parentOf blake a b = some p ∧ IsHexStr p := by
  rcases Option.isSome_iff_exists.mp ha with ⟨xa, hxa⟩
  rcases Option.isSome_iff_exists.mp hb with ⟨xb, hxb⟩
  simp only [parentOf, hex_concat_ordered]
  by_cases hle : strLe a b = true
  · simp only [hle, if_true, hxa, hxb, blake3_hex]
    exact ⟨_, rfl, isHexStr_hexEncode _⟩
  · simp only [hle, if_false, hxa, hxb, blake3_hex, Bool.false_eq_true]
    exact ⟨_, rfl, isHexStr_hexEncode _⟩

/-- One chunk pass succeeds on hex layers and yields a hex layer. -/
theorem buildPass_isSome (blake : List Nat → List Nat) :
    ∀ l pm, (∀ x ∈ l, IsHexStr x) →
      ∃ ns pm2, buildPass blake l pm = some (ns, pm2) ∧ ∀ x ∈ ns, IsHexStr x
  | [], pm, _ => ⟨[], pm, rfl, by simp⟩
  | [x], pm, h => by
      rcases parentOf_isSome blake (h x (by simp)) (h x (by simp)) with ⟨p, hp, hph⟩
      exact ⟨[p], pushSib (pushSib pm x x) x x, by simp [buildPass, hp],
        by simpa using hph⟩
  | x :: y :: rest, pm, h => by
      rcases parentOf_isSome blake (h x (by simp)) (h y (by simp)) with ⟨p, hp, hph⟩
      rcases buildPass_isSome blake rest (pushSib (pushSib pm x y) y x)
          (fun z hz => h z (by simp [hz])) with ⟨ns, pm2, hns, hnsh⟩
      refine ⟨p :: ns, pm2, by simp [buildPass, hp, hns], ?_⟩
      intro z hz
      rcases List.mem_cons.mp hz with rfl | hz2
      · exact hph
      · exact hnsh z hz2

/-- The layer loop succeeds on non-empty hex layers. -/
theorem buildLoop_isSome (blake : List Nat → List Nat) :
    ∀ layer pm, layer ≠ [] → (∀ x ∈ layer, IsHexStr x) →
      (buildLoop blake layer pm).isSome := by
  intro layer pm
  induction layer, pm using buildLoop.induct blake with
  | case1 pm => intro hne _; exact absurd rfl hne
  | case2 pm r => intro _ _; simp [buildLoop]
  | case3 pm x y rest hnone =>
      intro _ hhex
      rcases buildPass_isSome blake (x :: y :: rest) pm hhex with ⟨ns, pm2, hsome, _⟩
      rw [hnone] at hsome
      cases hsome
  | case4 pm x y rest next pm2 hsome ih =>
      intro _ hhex
      rcases buildPass_isSome blake (x :: y :: rest) pm hhex with ⟨ns, pm3, hsome2, hnsh⟩
      rw [hsome] at hsome2
      cases hsome2
      have hlen := buildPass_len blake (x :: y :: rest) pm next pm2 hsome
      have hne2 : next ≠ [] := by
        intro h0
        rw [h0] at hlen
        simp only [List.length_nil, List.length_cons] at hlen
        omega
      simp only [buildLoop]
      split
      · rename_i heq
        rw [heq] at hsome
        cases hsome
      · rename_i n2 p2 heq
        rw [heq] at hsome
        cases hsome
        exact ih hne2 hnsh

/-- C10: `hex_concat_ordered` panics (hits its `expect`) exactly when an
input fails hex decoding; when every digest handed to them is valid hex,
`hex_concat_ordered`, `build_merkle` and `fold_path_to_root` all run to
completion with no panic reachable. -/
theorem c10_hex_panics_and_totality :
    (∀ a b : String, (hexDecode a = none ∨ hexDecode b = none) →
      hex_concat_ordered a b = none) ∧
    (∀ a b : String, IsHexStr a → IsHexStr b → (hex_concat_ordered a b).isSome) ∧
    (∀ (blake : List Nat → List Nat) (leaves : List String),
      (∀ l ∈ leaves, IsHexStr l) → (build_merkle blake leaves).isSome) ∧
    (∀ (blake : List Nat → List Nat) (leaf : String) (path : List String),
      IsHexStr leaf → (∀ s ∈ path, IsHexStr s) →
      (fold_path_to_root blake leaf path).isSome) := by
  refine ⟨?_, ?_, ?_, ?_⟩
  · intro a b h
    rcases hx : hexDecode a with _ | xa <;> rcases hy : hexDecode b with _ | xb <;>
      simp only [hex_concat_ordered] <;> by_cases hle : strLe a b = true <;>
      simp_all
  · intro a b ha hb
    rcases Option.isSome_iff_exists.mp ha with ⟨xa, hxa⟩
    rcases Option.isSome_iff_exists.mp hb with ⟨xb, hxb⟩
    simp only [hex_concat_ordered]
    by_cases hle : strLe a b = true <;> simp [hle, hxa, hxb]
  · intro blake leaves hhex
    by_cases hne : leaves = []
    · simp [build_merkle, hne]
    · simp only [build_merkle, hne, if_false]
      exact buildLoop_isSome blake leaves (initPaths leaves) hne hhex
  · intro blake leaf path hleaf hpath
    induction path generalizing leaf with
    | nil => simp [fold_path_to_root]
    | cons s rest ih =>
        rcases parentOf_isSome blake hleaf (hpath s (by simp)) with ⟨p, hp, hph⟩
        simp only [fold_path_to_root, hp]
        exact ih p hph (fun z hz => hpath z (List.mem_cons_of_mem _ hz))

/-- Witness for C10: a non-hex string panics the concatenation, and hex
batches and paths run panic-free. -/
theorem c10_hex_panics_and_totality_witness :
    hexDecode "zz" = none ∧
    hex_concat_ordered "zz" "aa" = none ∧
    (build_merkle toyBlake ["aa", "bb", "cc"]).isSome ∧
    (fold_path_to_root toyBlake "ab" ["cd", "ef"]).isSome :=
  ⟨by decide,
   c10_hex_panics_and_totality.1 "zz" "aa" (Or.inl (by decide)),
   c10_hex_panics_and_totality.2.2.1 toyBlake ["aa", "bb", "cc"] (by decide),
   c10_hex_panics_and_totality.2.2.2 toyBlake "ab" ["cd", "ef"] (by decide) (by decide)⟩

/-- Ordered concatenation does not depend on argument order. -/
theorem hex_concat_ordered_comm (a b : String) :
    hex_concat_ordered a b = hex_concat_ordered b a := by
  by_cases hab : strLe a b = true <;> by_cases hba : strLe b a = true
  · rw [strLe_antisymm hab hba]
  · simp [hex_concat_ordered, hab, hba]
  · simp [hex_concat_ordered, hab, hba]
  · rcases strLe_total a b with h | h
    · exact absurd h hab
    · exact absurd h hba

/-- Evaluation of the layer loop on a two-digest layer. -/
theorem buildLoop_pair (blake : List Nat → List Nat) (a b : String) (pm : PathMap) :
    buildLoop blake [a, b] pm =
      match parentOf blake a b with
      | none => none
      | some p => some (p, pushSib (pushSib pm a b) b a) := by
  rcases hp : parentOf blake a b with _ | p
  · simp only [buildLoop, buildPass]
    rw [hp]
  · simp only [buildLoop, buildPass]
    rw [hp]
    simp only [buildLoop]

/-- C1 (failing evaluation): on the sorted four-leaf batch
`["00","01","02","03"]` with an injective stand-in digest, the recorded path
of leaf `"00"` holds only its bottom-level sibling, so folding it stops at
the first parent and misses the root: `build_merkle` pushes each upper-level
sibling onto the entry of the freshly computed parent digest instead of the
entries of the leaves below it, so no leaf's recorded path ever reaches the
root of a batch with more than two leaves. -/
theorem c1_extracted_path_fold_misses_root :
    build_merkle toyBlake ["00", "01", "02", "03"] = some ("00010102030101",
      [("00", ["01"]), ("01", ["00"]), ("02", ["03"]), ("03", ["02"]),
       ("000101", ["020301"]), ("020301", ["000101"])]) ∧
    getPath [("00", ["01"]), ("01", ["00"]), ("02", ["03"]), ("03", ["02"]),
       ("000101", ["020301"]), ("020301", ["000101"])] "00" = some ["01"] ∧
    fold_path_to_root toyBlake "00" ["01"] = some "000101" ∧
    "000101" ≠ "00010102030101" := by
  refine ⟨?_, by decide, by decide, by decide⟩
  simp +decide [build_merkle, buildLoop, buildPass, parentOf, hex_concat_ordered,
    blake3_hex, hexEncode, hexDecode, hexDecodeChars, hexDigitVal, hexDigitChar,
    toyBlake, strLe, strBytes, bytesLe, pushSib, initPaths, ensureKey]

/-- C2 (counterexample): a three-element digest set where the root of a
permuted input differs from the root of the sorted input — ordered
concatenation cancels child order inside one pair, but permutation changes
the pairing itself. -/
theorem c2_root_depends_on_permutation :
    (["cc", "aa", "bb"] : List String).Perm ["aa", "bb", "cc"] ∧
    sortLe strLe ["cc", "aa", "bb"] = ["aa", "bb", "cc"] ∧
    (build_merkle toyBlake ["cc", "aa", "bb"]).map Prod.fst ≠
      (build_merkle toyBlake ["aa", "bb", "cc"]).map Prod.fst := by
  have h1 : (build_merkle toyBlake ["cc", "aa", "bb"]).map Prod.fst =
      some "aacc01bbbb0101" := by
    simp +decide [build_merkle, buildLoop, buildPass, parentOf, hex_concat_ordered,
      blake3_hex, hexEncode, hexDecode, hexDecodeChars, hexDigitVal, hexDigitChar,
      toyBlake, strLe, strBytes, bytesLe, pushSib, initPaths, ensureKey]
  have h2 : (build_merkle toyBlake ["aa", "bb", "cc"]).map Prod.fst =
      some "aabb01cccc0101" := by
    simp +decide [build_merkle, buildLoop, buildPass, parentOf, hex_concat_ordered,
      blake3_hex, hexEncode, hexDecode, hexDecodeChars, hexDigitVal, hexDigitChar,
      toyBlake, strLe, strBytes, bytesLe, pushSib, initPaths, ensureKey]
  refine ⟨by decide, by decide, ?_⟩
  rw [h1, h2]
  decide

/-- C2 (amended): the root of a two-leaf batch is independent of the order of
its two leaves, for every digest function — the only order independence the
ordered-concatenation rule buys; larger batches must be sorted by the caller,
as `seal` and `anchor` do. -/
theorem c2_amended_pair_order_independent (blake : List Nat → List Nat)
    (a b : String) :
    (build_merkle blake [a, b]).map Prod.fst =
      (build_merkle blake [b, a]).map Prod.fst := by
  have hcomm : parentOf blake a b = parentOf blake b a := by
    unfold parentOf
    rw [hex_concat_ordered_comm]
  simp only [build_merkle, reduceIte, List.cons_ne_nil]
  rw [buildLoop_pair, buildLoop_pair, hcomm]
  rcases parentOf blake b a with _ | p <;> simp

/-- The canonical digest ignores the transmitted `leaf` and `merkle` fields
(they are removed before hashing), but nothing else. -/
theorem canonical_leaf_hex_ignores_leaf_merkle (blake : List Nat → List Nat)
    (r : MReceipt) (lf : String) (mk : MMerkle) :
    canonical_leaf_hex blake { r with leaf := lf, merkle := mk } =
      canonical_leaf_hex blake r := by
  simp +decide [canonical_leaf_hex, canonical_payload_json, mreceiptToJson,
    remove_leaf_and_merkle, removeKeyEntries]

/-- C3 (counterexample): a receipt that satisfies the code's own stored-leaf
invariant — its `leaf` equals `canonical_leaf_hex` of the record — while that
digest differs from the spec's digest-sans-`sign`: the code removes only
`leaf` and `merkle` before hashing and keeps `sign`. -/
theorem c3_stored_leaf_retains_sign :
    ({ mrec0 with leaf := canonical_leaf_hex toyBlake mrec0 } : MReceipt).leaf =
      canonical_leaf_hex toyBlake
        { mrec0 with leaf := canonical_leaf_hex toyBlake mrec0 } ∧
    ({ mrec0 with leaf := canonical_leaf_hex toyBlake mrec0 } : MReceipt).leaf ≠
      canonical_leaf_hex_spec toyBlake
        { mrec0 with leaf := canonical_leaf_hex toyBlake mrec0 } := by
  constructor
  · set_option maxRecDepth 40000 in decide
  · set_option maxRecDepth 40000 in decide

/-- C3 (amended): the stored leaf digest is the hash of the canonicalization
of the record with `leaf` and `merkle` removed and `sign` retained: it is
invariant under the transmitted `leaf`/`merkle` values, a freshly assigned
leaf satisfies the invariant (the emit/finalize assignment), and the CLI
verify recomputes the digest and compares it with the transmitted `leaf`,
rejecting with `leaf mismatch` rather than trusting it. -/
theorem c3_amended_leaf_digest_recomputed (blake : List Nat → List Nat)
    (r : MReceipt) (root_hex lf : String) (mk : MMerkle) :
    canonical_leaf_hex blake { r with leaf := lf, merkle := mk } =
      canonical_leaf_hex blake r ∧
    canonical_leaf_hex blake { r with leaf := canonical_leaf_hex blake r } =
      ({ r with leaf := canonical_leaf_hex blake r } : MReceipt).leaf ∧
    (verifyCmdChecks blake r root_hex = .ok () →
      canonical_leaf_hex blake r = r.leaf) ∧
    (canonical_leaf_hex blake r ≠ r.leaf →
      verifyCmdChecks blake r root_hex =
        .error "leaf mismatch: receipt tampered or not canonical") := by
  refine ⟨canonical_leaf_hex_ignores_leaf_merkle blake r lf mk, ?_, ?_, ?_⟩
  · exact canonical_leaf_hex_ignores_leaf_merkle blake r (canonical_leaf_hex blake r)
      r.merkle
  · intro hok
    by_contra hne
    simp [verifyCmdChecks, hne] at hok
  · intro hne
    simp [verifyCmdChecks, hne]

/-- Witness for C3 (amended) at a concrete tampered receipt: `mrec0` carries
an empty `leaf`, so verification refuses it by recomputation. -/
theorem c3_amended_leaf_digest_recomputed_witness :
    verifyCmdChecks toyBlake mrec0 "r" =
      .error "leaf mismatch: receipt tampered or not canonical" :=
  (c3_amended_leaf_digest_recomputed toyBlake mrec0 "r" "" ⟨"", [], ""⟩).2.2.2
    (by set_option maxRecDepth 40000 in decide)

/-- The serialized record with `sign` removed does not depend on the `sign`
field's value: both `sign_receipt` and `verify_receipt` hash the same bytes
whatever the `sign` block holds. -/
theorem removeSignKey_rreceiptToJson (r : RReceipt) (s : Option RSign) :
    removeSignKey (rreceiptToJson { r with sign := s }) =
      removeSignKey (rreceiptToJson r) := by
  cases hp : r.provenance <;> cases hq : r.provenance_ref <;>
    simp +decide [rreceiptToJson, removeSignKey, removeKeyEntries, hp, hq]

/-- The digest signed for a record is unchanged by its `sign` field. -/
theorem signedDigest_sign_invariant (blake : List Nat → List Nat) (r : RReceipt)
    (s : Option RSign) :
    signedDigest blake { r with sign := s } = signedDigest blake r := by
  unfold signedDigest hash_canonical
  rw [removeSignKey_rreceiptToJson]

/-- C5 (amended): with a correct signature scheme and round-tripping base64,
verification succeeds on the untampered signed record; any mutation that
changes the canonical sign-stripped digest — any field outside the `sign`
block — fails with the cryptographic-mismatch error when the scheme refuses
the old signature on the new digest; but the `alg` entry of the `sign` block
is not covered: verification's outcome is invariant under every `alg`
mutation. -/
theorem c5_amended_sign_verify (S : SigScheme) (b : B64)
    (blake : List Nat → List Nat) (kp : Keypair) (r r2 : RReceipt)
    (h1 : b.dec (b.enc kp.public) = some kp.public)
    (h2 : b.dec (b.enc (S.sign kp (strBytes (signedDigest blake r)))) =
      some (S.sign kp (strBytes (signedDigest blake r))))
    (h3 : S.parsePub kp.public = some kp.public)
    (h4 : S.parseSig (S.sign kp (strBytes (signedDigest blake r))) =
      some (S.sign kp (strBytes (signedDigest blake r))))
    (h5 : S.verify kp.public (strBytes (signedDigest blake r))
      (S.sign kp (strBytes (signedDigest blake r))) = true) :
    verify_receipt S b blake (sign_receipt S b blake r kp) = .ok () ∧
    (r2.sign = (sign_receipt S b blake r kp).sign →
      signedDigest blake r2 ≠ signedDigest blake r →
      S.verify kp.public (strBytes (signedDigest blake r2))
        (S.sign kp (strBytes (signedDigest blake r))) = false →
      verify_receipt S b blake r2 = .error "signature verify failed") ∧
    (∀ (r3 : RReceipt) (a : Option String),
      verify_receipt S b blake (setSignAlg r3 a) = verify_receipt S b blake r3) := by
  simp only [signedDigest] at h2 h4 h5
  refine ⟨?_, ?_, ?_⟩
  · have hd : hash_canonical blake (removeSignKey (rreceiptToJson
        (sign_receipt S b blake r kp))) =
        hash_canonical blake (removeSignKey (rreceiptToJson r)) :=
      signedDigest_sign_invariant blake r _
    simp only [sign_receipt, verify_receipt] at hd ⊢
    simp only [h1, h2, h3, h4, hd, h5]
    simp
  · intro hsig hdiff h6
    simp only [signedDigest] at h6
    simp only [verify_receipt, hsig, sign_receipt]
    simp only [h1, h2, h3, h4, h6]
    simp
  · intro r3 a
    cases hs : r3.sign with
    | none =>
        simp [verify_receipt, setSignAlg, hs]
    | some s =>
        have hd : hash_canonical blake (removeSignKey (rreceiptToJson
            { r3 with sign := some { s with alg := a } })) =
            hash_canonical blake (removeSignKey (rreceiptToJson r3)) := by
          rw [removeSignKey_rreceiptToJson r3 (some { s with alg := a })]
        have hset : setSignAlg r3 a = { r3 with sign := some { s with alg := a } } := by
          simp [setSignAlg, hs]
        rw [hset]
        simp only [verify_receipt, hs, hd]

/-- C5 (counterexample): an untampered signed receipt verifies, yet mutating
the `alg` field of its `sign` block to a different value still verifies —
`verify_receipt` never reads `alg` — so not every mutation of a signed
receipt's fields fails verification. -/
theorem c5_alg_mutation_undetected :
    verify_receipt toySig toyB64 toyBlake
      (sign_receipt toySig toyB64 toyBlake rrec0 kp0) = .ok () ∧
    (setSignAlg (sign_receipt toySig toyB64 toyBlake rrec0 kp0)
        (some "tampered")).sign ≠
      (sign_receipt toySig toyB64 toyBlake rrec0 kp0).sign ∧
    verify_receipt toySig toyB64 toyBlake
      (setSignAlg (sign_receipt toySig toyB64 toyBlake rrec0 kp0)
        (some "tampered")) = .ok () := by
  refine ⟨?_, ?_, ?_⟩
  · set_option maxRecDepth 80000 in rfl
  · set_option maxRecDepth 80000 in decide
  · set_option maxRecDepth 80000 in rfl

/-- Witness for C5 (amended) with the stand-in scheme: the untampered signed
receipt verifies and a receipt with a mutated `ts` under the old signature is
refused as a cryptographic mismatch. -/
theorem c5_amended_sign_verify_witness :
    verify_receipt toySig toyB64 toyBlake
      (sign_receipt toySig toyB64 toyBlake rrec0 kp0) = .ok () ∧
    verify_receipt toySig toyB64 toyBlake
      { sign_receipt toySig toyB64 toyBlake rrec0 kp0 with ts := "mutated" } =
      .error "signature verify failed" :=
  ⟨(c5_amended_sign_verify toySig toyB64 toyBlake kp0 rrec0
      { sign_receipt toySig toyB64 toyBlake rrec0 kp0 with ts := "mutated" }
      (by set_option maxRecDepth 80000 in decide)
      (by set_option maxRecDepth 80000 in decide)
      (by set_option maxRecDepth 80000 in decide)
      (by set_option maxRecDepth 80000 in decide)
      (by set_option maxRecDepth 80000 in decide)).1,
   (c5_amended_sign_verify toySig toyB64 toyBlake kp0 rrec0
      { sign_receipt toySig toyB64 toyBlake rrec0 kp0 with ts := "mutated" }
      (by set_option maxRecDepth 80000 in decide)
      (by set_option maxRecDepth 80000 in decide)
      (by set_option maxRecDepth 80000 in decide)
      (by set_option maxRecDepth 80000 in decide)
      (by set_option maxRecDepth 80000 in decide)).2.1 rfl
      (by set_option maxRecDepth 80000 in decide)
      (by set_option maxRecDepth 80000 in decide)⟩

/-- `sortJsonEntries` is the entry-wise map of `sortJson` over values. -/
theorem sortJsonEntries_eq_map : ∀ l : List (String × Json),
    sortJsonEntries l = l.map fun p => (p.1, sortJson p.2)
  | [] => rfl
  | (_, _) :: xs => by simp [sortJsonEntries, sortJsonEntries_eq_map xs]

/-- Entry-wise equivalent lists carry the same keys in the same order. -/
theorem jEquivEntries_keys : ∀ {l1 l2 : List (String × Json)},
    JEquivEntries l1 l2 → l1.map Prod.fst = l2.map Prod.fst
  | _, _, .nil => rfl
  | _, _, .cons _ hs => by simp [jEquivEntries_keys hs]

mutual

/-- Key-order equivalent well-formed values have equal `sort_json` images:
canonicalization erases every object's insertion order at every depth. -/
theorem sortJson_eq_of_jEquiv : ∀ {a b : Json},
    JEquiv a b → jsonWF a = true → sortJson a = sortJson b
  | _, _, .null, _ => rfl
  | _, _, .bool _, _ => rfl
  | _, _, .num _, _ => rfl
  | _, _, .str _, _ => rfl
  | _, _, .arr h, wf => by
      simp only [sortJson]
      exact congrArg Json.arr (sortJsonArr_eq_of_jEquivArr h (by simpa [jsonWF] using wf))
  | _, _, @JEquiv.obj l1 l2 l3 hent hperm, wf => by
      simp only [sortJson]
      simp only [jsonWF, Bool.and_eq_true, decide_eq_true_eq] at wf
      have h12 : sortJsonEntries l1 = sortJsonEntries l2 :=
        sortJsonEntries_eq_of_jEquivEntries hent wf.2
      have hperm2 : (sortJsonEntries l2).Perm (sortJsonEntries l3) := by
        rw [sortJsonEntries_eq_map l2, sortJsonEntries_eq_map l3]
        exact hperm.map _
      have hkeys : (sortJsonEntries l2).map Prod.fst = l2.map Prod.fst := by
        rw [sortJsonEntries_eq_map l2]
        simp [List.map_map, Function.comp]
      have hnd : ((sortJsonEntries l2).map Prod.fst).Nodup := by
        rw [hkeys, ← jEquivEntries_keys hent]
        exact wf.1
      rw [h12, sortLe_keyLe_eq_of_perm hperm2 hnd]

/-- Element-wise version for arrays. -/
theorem sortJsonArr_eq_of_jEquivArr : ∀ {xs ys : List Json},
    JEquivArr xs ys → jsonWFArr xs = true → sortJsonArr xs = sortJsonArr ys
  | _, _, .nil, _ => rfl
  | _, _, .cons h hs, wf => by
      simp only [jsonWFArr, Bool.and_eq_true] at wf
      simp only [sortJsonArr]
      rw [sortJson_eq_of_jEquiv h wf.1, sortJsonArr_eq_of_jEquivArr hs wf.2]

/-- Entry-wise version for object entry lists. -/
theorem sortJsonEntries_eq_of_jEquivEntries : ∀ {l1 l2 : List (String × Json)},
    JEquivEntries l1 l2 → jsonWFEntries l1 = true → sortJsonEntries l1 = sortJsonEntries l2
  | _, _, .nil, _ => rfl
  | _, _, .cons h hs, wf => by
      simp only [jsonWFEntries, Bool.and_eq_true] at wf
      simp only [sortJsonEntries]
      rw [sortJson_eq_of_jEquiv h wf.1, sortJsonEntries_eq_of_jEquivEntries hs wf.2]

end

mutual

/-- Key-order equivalence is reflexive. -/
theorem jEquiv_refl : ∀ v : Json, JEquiv v v
  | .null => .null
  | .bool b => .bool b
  | .num n => .num n
  | .str s => .str s
  | .arr xs => .arr (jEquivArr_refl xs)
  | .obj kvs => .obj (jEquivEntries_refl kvs) (List.Perm.refl kvs)

/-- Reflexivity for array element lists. -/
theorem jEquivArr_refl : ∀ xs : List Json, JEquivArr xs xs
  | [] => .nil
  | x :: xs => .cons (jEquiv_refl x) (jEquivArr_refl xs)

/-- Reflexivity for object entry lists. -/
theorem jEquivEntries_refl : ∀ l : List (String × Json), JEquivEntries l l
  | [] => .nil
  | (_, v) :: l => .cons (jEquiv_refl v) (jEquivEntries_refl l)

end

/-- C4: for every JSON record and every permutation of the insertion order of
its mapping keys at any nesting depth (`JEquiv`, over records whose objects
hold no duplicate key), canonicalization — `sort_json` followed by compact
serialization — produces byte-identical output, and therefore the identical
digest under every digest function. -/
theorem c4_canonicalization_key_order_independent (blake : List Nat → List Nat)
    (a b : Json) (h : JEquiv a b) (hwf : jsonWF a = true) :
    serializeJson (sortJson a) = serializeJson (sortJson b) ∧
    blake3_hex blake (strBytes (serializeJson (sortJson a))) =
      blake3_hex blake (strBytes (serializeJson (sortJson b))) := by
  have hs := sortJson_eq_of_jEquiv h hwf
  exact ⟨by rw [hs], by rw [hs]⟩

/-- Witness for C4 at a two-level record with both nesting levels permuted. -/
theorem c4_canonicalization_key_order_independent_witness :
    jsonWF (Json.obj [("b", Json.str "2"),
      ("a", Json.arr [Json.obj [("y", Json.null), ("x", Json.bool true)]])]) = true ∧
    serializeJson (sortJson (Json.obj [("b", Json.str "2"),
      ("a", Json.arr [Json.obj [("y", Json.null), ("x", Json.bool true)]])])) =
    serializeJson (sortJson (Json.obj [("a", Json.arr [Json.obj
      [("x", Json.bool true), ("y", Json.null)]]), ("b", Json.str "2")])) := by
  have inner : JEquiv (Json.obj [("y", Json.null), ("x", Json.bool true)])
      (Json.obj [("x", Json.bool true), ("y", Json.null)]) :=
    .obj (jEquivEntries_refl _) (List.Perm.swap ("x", Json.bool true) ("y", Json.null) [])
  have houter : JEquivEntries
      [("b", Json.str "2"), ("a", Json.arr [Json.obj [("y", Json.null), ("x", Json.bool true)]])]
      [("b", Json.str "2"), ("a", Json.arr [Json.obj [("x", Json.bool true), ("y", Json.null)]])] :=
    .cons (jEquiv_refl _) (.cons (.arr (.cons inner .nil)) .nil)
  have hperm : [("b", Json.str "2"),
      ("a", Json.arr [Json.obj [("x", Json.bool true), ("y", Json.null)]])].Perm
      [("a", Json.arr [Json.obj [("x", Json.bool true), ("y", Json.null)]]), ("b", Json.str "2")] :=
    List.Perm.swap ("a", Json.arr [Json.obj [("x", Json.bool true), ("y", Json.null)]])
      ("b", Json.str "2") []
  exact ⟨by decide,
    (c4_canonicalization_key_order_independent toyBlake _ _ (.obj houter hperm) (by decide)).1⟩
